import Mathlib

/-
Verification of the crypto_utils core of the 3DES repository:
password-based key derivation, AES-GCM file framing, chunked file hashing,
and the proof-of-work ledger (Blockchain class).

Bytes are modelled as natural numbers below 256; byte strings as `List Nat`.
External library primitives (PyCryptodome AES-GCM, PBKDF2) are modelled as
parameters constrained by their documented contracts; `hashlib.sha256` and
`json.dumps` are modelled concretely below so that canonical block hashing
and transaction signatures are fully executable.
-/

namespace CryptoUtils

/-! ## SHA-256 (models hashlib.sha256 / Crypto.Hash.SHA256) -/

def W32 : Nat := 4294967296

def wadd (x y : Nat) : Nat := (x + y) % W32

def rotr (n x : Nat) : Nat := ((x >>> n) ||| (x <<< (32 - n))) % W32

def bsig0 (x : Nat) : Nat := rotr 2 x ^^^ rotr 13 x ^^^ rotr 22 x

def bsig1 (x : Nat) : Nat := rotr 6 x ^^^ rotr 11 x ^^^ rotr 25 x

def ssig0 (x : Nat) : Nat := rotr 7 x ^^^ rotr 18 x ^^^ (x >>> 3)

def ssig1 (x : Nat) : Nat := rotr 17 x ^^^ rotr 19 x ^^^ (x >>> 10)

def chFn (x y z : Nat) : Nat := (x &&& y) ^^^ ((x ^^^ 4294967295) &&& z)

def majFn (x y z : Nat) : Nat := (x &&& y) ^^^ (x &&& z) ^^^ (y &&& z)

/-- FIPS 180-4 round constants (fractional cube roots of the first 64
primes), written in decimal. -/
def sha256K : List Nat :=
  [1116352408, 1899447441, 3049323471, 3921009573, 961987163,
   1508970993, 2453635748, 2870763221, 3624381080, 310598401,
   607225278, 1426881987, 1925078388, 2162078206, 2614888103,
   3248222580, 3835390401, 4022224774, 264347078, 604807628,
   770255983, 1249150122, 1555081692, 1996064986, 2554220882,
   2821834349, 2952996808, 3210313671, 3336571891, 3584528711,
   113926993, 338241895, 666307205, 773529912, 1294757372,
   1396182291, 1695183700, 1986661051, 2177026350, 2456956037,
   2730485921, 2820302411, 3259730800, 3345764771, 3516065817,
   3600352804, 4094571909, 275423344, 430227734, 506948616,
   659060556, 883997877, 958139571, 1322822218, 1537002063,
   1747873779, 1955562222, 2024104815, 2227730452, 2361852424,
   2428436474, 2756734187, 3204031479, 3329325298]

/-- FIPS 180-4 initial hash values (fractional square roots of the first 8
primes), written in decimal. -/
def sha256H0 : List Nat :=
  [1779033703, 3144134277, 1013904242, 2773480762, 1359893119,
   2600822924, 528734635, 1541459225]

/-- Group a byte list into big-endian 32-bit words (complete groups of 4). -/
def toWordsBE : List Nat → List Nat
  | b0 :: b1 :: b2 :: b3 :: rest => (((b0 * 256 + b1) * 256 + b2) * 256 + b3) :: toWordsBE rest
  | _ => []

/-- Extend the message schedule; `rws` holds the words produced so far, newest first. -/
def extendW : Nat → List Nat → List Nat
  | 0, rws => rws.reverse
  | fuel + 1, rws =>
    extendW fuel
      (wadd (wadd (ssig1 (rws.getD 1 0)) (rws.getD 6 0))
            (wadd (ssig0 (rws.getD 14 0)) (rws.getD 15 0)) :: rws)

def roundStep (st : Nat × Nat × Nat × Nat × Nat × Nat × Nat × Nat) (kw : Nat × Nat) :
    Nat × Nat × Nat × Nat × Nat × Nat × Nat × Nat :=
  match st with
  | (a, b, c, d, e, f, g, hh) =>
    let t1 := wadd hh (wadd (bsig1 e) (wadd (chFn e f g) (wadd kw.1 kw.2)))
    let t2 := wadd (bsig0 a) (majFn a b c)
    (wadd t1 t2, a, b, c, wadd d t1, e, f, g)

/-- Compression function: absorb one 64-byte block into the 8-word state. -/
def compress (hs : List Nat) (blockBytes : List Nat) : List Nat :=
  let ws := extendW 48 (toWordsBE blockBytes).reverse
  let st0 := (hs.getD 0 0, hs.getD 1 0, hs.getD 2 0, hs.getD 3 0,
              hs.getD 4 0, hs.getD 5 0, hs.getD 6 0, hs.getD 7 0)
  match (sha256K.zip ws).foldl roundStep st0 with
  | (a, b, c, d, e, f, g, hh) =>
    [wadd (hs.getD 0 0) a, wadd (hs.getD 1 0) b, wadd (hs.getD 2 0) c,
     wadd (hs.getD 3 0) d, wadd (hs.getD 4 0) e, wadd (hs.getD 5 0) f,
     wadd (hs.getD 6 0) g, wadd (hs.getD 7 0) hh]

/-- Big-endian byte expansion of `n` to exactly `k` bytes. -/
def natToBytesBE : Nat → Nat → List Nat
  | 0, _ => []
  | k + 1, n => natToBytesBE k (n / 256) ++ [n % 256]

/-- SHA-256 padding: append 0x80, zero bytes to 56 mod 64, then the 64-bit bit length. -/
def padMessage (ms : List Nat) : List Nat :=
  let z := (120 - (ms.length + 1) % 64) % 64
  ms ++ 128 :: (List.replicate z 0 ++ natToBytesBE 8 (ms.length * 8))

/-- Split a list into consecutive chunks of size `n`; the fuel argument bounds
the number of chunks and is instantiated with the list length. -/
def chunksAux {α : Type} (n : Nat) : Nat → List α → List (List α)
  | 0, _ => []
  | _ + 1, [] => []
  | fuel + 1, x :: xs => (x :: xs).take n :: chunksAux n fuel ((x :: xs).drop n)

def chunksOfSize {α : Type} (n : Nat) (l : List α) : List (List α) :=
  chunksAux n l.length l

def sha256Words (ms : List Nat) : List Nat :=
  (chunksOfSize 64 (padMessage ms)).foldl compress sha256H0

def hexDigitChar (n : Nat) : Char := Char.ofNat (if n < 10 then 48 + n else 87 + n)

/-- Lowercase hex rendering of `n`, zero-padded to width `w`. -/
def hexPad : Nat → Nat → String
  | 0, _ => ""
  | w + 1, n => hexPad w (n / 16) ++ String.singleton (hexDigitChar (n % 16))

/-- Lowercase hex digest of a byte string, as hashlib hexdigest returns it. -/
def sha256bytesHex (ms : List Nat) : String :=
  String.join ((sha256Words ms).map (hexPad 8))

/-! ## UTF-8 encoding (models Python str.encode) -/

def utf8EncodeChar (c : Char) : List Nat :=
  let n := c.toNat
  if n < 128 then [n]
  else if n < 2048 then [192 + n / 64, 128 + n % 64]
  else if n < 65536 then [224 + n / 4096, 128 + (n / 64) % 64, 128 + n % 64]
  else [240 + n / 262144, 128 + (n / 4096) % 64, 128 + (n / 64) % 64, 128 + n % 64]

def utf8Bytes (s : String) : List Nat := (s.data.map utf8EncodeChar).flatten

/-- Models hashlib.sha256(s.encode()).hexdigest(). -/
def sha256OfString (s : String) : String := sha256bytesHex (utf8Bytes s)

/-- Sanity: FIPS 180-4 test vector for the empty message. -/
theorem sha256_empty_vector :
    sha256OfString "" = "e3b0c44298fc1c149afbf4c8996fb92427ae41e4649b934ca495991b7852b855" := by
  decide

/-- Sanity: FIPS 180-4 test vector for the message "abc". -/
theorem sha256_abc_vector :
    sha256OfString "abc" = "ba7816bf8f01cfea414140de5dae2223b00361a396177a9cb410ff61f20015ad" := by
  decide

/-! ## Python values and json.dumps (sort_keys=True, configurable separators) -/

mutual

/-- Structured Python values as they occur in block payloads and file_info dicts. -/
inductive PyVal where
  | str (s : String)
  | int (n : Int)
  | bool (b : Bool)
  | null
  | list (xs : PyList)
  | dict (kvs : PyDict)

/-- A Python list of values. -/
inductive PyList where
  | nil
  | cons (v : PyVal) (rest : PyList)

/-- A Python dict with string keys, in insertion order. -/
inductive PyDict where
  | nil
  | cons (k : String) (v : PyVal) (rest : PyDict)

end

instance : Inhabited PyVal := ⟨PyVal.null⟩

instance : Inhabited PyDict := ⟨PyDict.nil⟩

def PyList.ofList : List PyVal → PyList
  | [] => .nil
  | v :: rest => .cons v (PyList.ofList rest)

def PyDict.ofList : List (String × PyVal) → PyDict
  | [] => .nil
  | (k, v) :: rest => .cons k v (PyDict.ofList rest)

/-- JSON escape of one character, following the CPython ensure_ascii encoder:
printable ASCII verbatim, the short escapes for quote, backslash and control
characters that have them, and lowercase hex escapes (surrogate pairs beyond
the BMP) for everything else. -/
def jsonEscapeChar (c : Char) : String :=
  let n := c.toNat
  if n = 34 then "\\\""
  else if n = 92 then "\\\\"
  else if n = 10 then "\\n"
  else if n = 9 then "\\t"
  else if n = 13 then "\\r"
  else if n = 8 then "\\b"
  else if n = 12 then "\\f"
  else if 32 ≤ n ∧ n < 127 then String.singleton c
  else if n < 65536 then "\\u" ++ hexPad 4 n
  else
    let m := n - 65536
    "\\u" ++ hexPad 4 (55296 + m / 1024) ++ "\\u" ++ hexPad 4 (56320 + m % 1024)

def quoteJson (s : String) : String :=
  "\"" ++ String.join (s.data.map jsonEscapeChar) ++ "\""

/-- Strict lexicographic order on code-point sequences, as Python compares str. -/
def charListLt : List Char → List Char → Bool
  | [], [] => false
  | [], _ :: _ => true
  | _ :: _, [] => false
  | c :: cs, d :: ds =>
    if c.toNat < d.toNat then true
    else if d.toNat < c.toNat then false
    else charListLt cs ds

def strLt (a b : String) : Bool := charListLt a.data b.data

/-- Insert a rendered key/value pair into a list sorted by key (ascending). -/
def insertPair (p : String × String) : List (String × String) → List (String × String)
  | [] => [p]
  | q :: rest => if strLt p.1 q.1 then p :: q :: rest else q :: insertPair p rest

/-- Sort rendered key/value pairs by key, as json.dumps(..., sort_keys=True) does. -/
def sortPairs : List (String × String) → List (String × String)
  | [] => []
  | p :: rest => insertPair p (sortPairs rest)

mutual

/-- Models json.dumps with sort_keys=True and separators (isep, ksep). -/
def dumpsVal (isep ksep : String) : PyVal → String
  | .str s => quoteJson s
  | .int n => toString n
  | .bool b => cond b "true" "false"
  | .null => "null"
  | .list xs => "[" ++ String.intercalate isep (dumpsList isep ksep xs) ++ "]"
  | .dict kvs =>
    "\x7b" ++
      String.intercalate isep
        ((sortPairs (dumpsPairs isep ksep kvs)).map fun p => quoteJson p.1 ++ ksep ++ p.2) ++
    "\x7d"
termination_by structural v => v

/-- Render every element of a Python list. -/
def dumpsList (isep ksep : String) : PyList → List String
  | .nil => []
  | .cons v rest => dumpsVal isep ksep v :: dumpsList isep ksep rest
termination_by structural l => l

/-- Render every value of a Python dict, keeping keys for sorting. -/
def dumpsPairs (isep ksep : String) : PyDict → List (String × String)
  | .nil => []
  | .cons k v rest => (k, dumpsVal isep ksep v) :: dumpsPairs isep ksep rest
termination_by structural d => d

end

/-- The compact canonical serialization used for block hashing:
json.dumps(..., sort_keys=True, separators=(",", ":")). -/
def dumpsCanonical (v : PyVal) : String := dumpsVal "," ":" v

/-- The default-separator serialization used for transaction signatures:
json.dumps(..., sort_keys=True) with separators (", ", ": "). -/
def dumpsPy (v : PyVal) : String := dumpsVal ", " ": " v

/-- Sanity: keys are sorted and default separators include spaces. -/
theorem dumpsPy_sample :
    dumpsPy (PyVal.dict (PyDict.ofList [("b", PyVal.int 2), ("a", PyVal.str "x")])) =
      "\x7b\"a\": \"x\", \"b\": 2\x7d" := by decide

/-- Sanity: the canonical form is compact. -/
theorem dumpsCanonical_sample :
    dumpsCanonical (PyVal.dict (PyDict.ofList [("b", PyVal.int 2), ("a", PyVal.str "x")])) =
      "\x7b\"a\":\"x\",\"b\":2\x7d" := by decide

/-! ## crypto_utils constants -/

def PBKDF2_ITERATIONS : Nat := 200000

def KEY_SIZE : Nat := 32

def SALT_SIZE : Nat := 16

def NONCE_SIZE : Nat := 12

def TAG_SIZE : Nat := 16

/-! ## derive_key_from_password

The PBKDF2 primitive is an external library function; it is modelled as a
parameter `kdf pwBytes salt dkLen count`. The randomness of
get_random_bytes(SALT_SIZE) is modelled by the explicit `fresh` argument,
used only when `salt` is absent, exactly as in the source. -/

def derive_key_from_password (kdf : List Nat → List Nat → Nat → Nat → List Nat)
    (password : String) (salt : Option (List Nat)) (fresh : List Nat) :
    List Nat × List Nat :=
  match salt with
  | some s => (kdf (utf8Bytes password) s KEY_SIZE PBKDF2_ITERATIONS, s)
  | Option.none => (kdf (utf8Bytes password) fresh KEY_SIZE PBKDF2_ITERATIONS, fresh)

/-! ## hash_file

The source reads the file in 8192-byte chunks, feeding each chunk to a
SHA-256 accumulator via update, then returns hexdigest. Per the hashlib
contract, updating with successive chunks is hashing the concatenation of
the bytes accumulated so far, so the accumulator state is modelled as the
byte string fed in so far. -/

def hash_file (content : List Nat) : String :=
  sha256bytesHex ((chunksOfSize 8192 content).foldl (fun acc c => acc ++ c) [])

/-! ## AES-GCM framing (encrypt_file / decrypt_file)

The AES-GCM primitive is external (PyCryptodome); it is modelled as a pair
of functions: `enc key nonce plaintext = (ciphertext, tag)` for
encrypt_and_digest, and `dec key nonce ciphertext tag`, returning `none`
when the library raises (tag verification failure, or cipher construction
failure on a malformed nonce) — the path on which decrypt_file writes
nothing. The random nonce of get_random_bytes(NONCE_SIZE) is an explicit
argument of encrypt_file. -/

structure AEAD where
  enc : List Nat → List Nat → List Nat → List Nat × List Nat
  dec : List Nat → List Nat → List Nat → List Nat → Option (List Nat)

/-- Models encrypt_file: the written blob is nonce ++ tag ++ ciphertext. -/
def encrypt_file (A : AEAD) (key nonce plaintext : List Nat) : List Nat :=
  let ct := A.enc key nonce plaintext
  nonce ++ ct.2 ++ ct.1

/-- Models decrypt_file: slices blob[:12], blob[12:28], blob[28:] and calls
decrypt_and_verify; `some` is the plaintext written, `none` means the
exception path where no output file is written. -/
def decrypt_file (A : AEAD) (key blob : List Nat) : Option (List Nat) :=
  A.dec key (blob.take NONCE_SIZE) (blob.drop (NONCE_SIZE + TAG_SIZE))
    ((blob.drop NONCE_SIZE).take TAG_SIZE)

/-! ## The Blockchain ledger -/

structure Transaction where
  sender : String
  recipient : String
  file_info : PyDict
  timestamp : String
  signature : String
deriving Inhabited

structure Block where
  index : Nat
  timestamp : String
  data : PyVal
  previous_hash : String
  nonce : Nat
  hash : String
  transactions : List Transaction
deriving Inhabited

structure Blockchain where
  chain : List Block
  difficulty : Nat
  pending_transactions : List Transaction
deriving Inhabited

def txToPyVal (tx : Transaction) : PyVal :=
  .dict (PyDict.ofList
    [("sender", .str tx.sender), ("recipient", .str tx.recipient),
     ("file_info", .dict tx.file_info), ("timestamp", .str tx.timestamp),
     ("signature", .str tx.signature)])

def blockToPyVal (b : Block) : PyVal :=
  .dict (PyDict.ofList
    [("index", .int b.index), ("timestamp", .str b.timestamp), ("data", b.data),
     ("previous_hash", .str b.previous_hash), ("nonce", .int b.nonce),
     ("hash", .str b.hash),
     ("transactions", .list (PyList.ofList (b.transactions.map txToPyVal)))])

/-- The digest taken by _hash_block after it has forced the hash field empty:
sha256 of the canonical (key-sorted, compact) JSON encoding of the block. -/
def hashBlockCore (b : Block) : String := sha256OfString (dumpsCanonical (blockToPyVal b))

/-- Models _hash_block parameterised by the digest function `H` applied to the
block with its hash field set to the empty string; the program instantiates
`H` with `hashBlockCore`. -/
def hashBlock (H : Block → String) (b : Block) : String := H { b with hash := "" }

/-- The program's _hash_block. -/
def hash_block (b : Block) : String := hashBlock hashBlockCore b

/-- Models s.startswith(Char.ofNat 48 repeated d times), i.e. '0' * d. -/
def startsWithZeros (d : Nat) (s : String) : Bool :=
  decide (s.data.take d = List.replicate d (Char.ofNat 48))

/-- Models the proof_of_work loop from trial value `n` with `fuel` remaining
attempts; the Python loop is unbounded, so `none` means fuel exhausted. -/
def powFrom (H : Block → String) (d : Nat) (b : Block) : Nat → Nat → Option Nat
  | 0, _ => Option.none
  | fuel + 1, n =>
    if startsWithZeros d (hashBlock H { b with nonce := n }) then some n
    else powFrom H d b fuel (n + 1)

def proof_of_work (H : Block → String) (d : Nat) (fuel : Nat) (b : Block) : Option Nat :=
  powFrom H d b fuel 0

/-- Models create_block: builds the candidate block, mines it, stores the
found nonce and the resulting hash, clears pending transactions and appends. -/
def create_block (H : Block → String) (fuel : Nat) (bc : Blockchain) (data : PyVal)
    (previous_hash ts : String) : Option (Blockchain × Block) :=
  let b0 : Block :=
    { index := bc.chain.length + 1, timestamp := ts, data := data,
      previous_hash := previous_hash, nonce := 0, hash := "",
      transactions := bc.pending_transactions }
  match proof_of_work H bc.difficulty fuel b0 with
  | Option.none => Option.none
  | some n =>
    let b1 := { b0 with nonce := n }
    let b2 := { b1 with hash := hashBlock H b1 }
    some ({ bc with chain := bc.chain ++ [b2], pending_transactions := [] }, b2)

/-- Models Blockchain.__init__: difficulty 4, empty pending buffer, then the
mined genesis block with data "Genesis Block" and previous_hash "0". -/
def mkBlockchain (H : Block → String) (fuel : Nat) (ts : String) : Option Blockchain :=
  (create_block H fuel { chain := [], difficulty := 4, pending_transactions := [] }
    (.str "Genesis Block") "0" ts).map (fun p => p.1)

/-- Models _create_signature: sha256 of sender + recipient +
json.dumps(file_info, sort_keys=True) with Python's default separators. -/
def create_signature (sender recipient : String) (file_info : PyDict) : String :=
  sha256OfString (sender ++ recipient ++ dumpsPy (.dict file_info))

/-- Models add_transaction: appends the signed transaction to the pending
buffer and returns last().index + 1 (none when the chain is empty and
self.last() would raise, after the append has happened). -/
def add_transaction (bc : Blockchain) (sender recipient : String) (file_info : PyDict)
    (ts : String) : Blockchain × Option Nat :=
  let tx : Transaction :=
    { sender := sender, recipient := recipient, file_info := file_info,
      timestamp := ts, signature := create_signature sender recipient file_info }
  ({ bc with pending_transactions := bc.pending_transactions ++ [tx] },
   bc.chain.getLast?.map (fun b => b.index + 1))

/-- Models the verify_chain loop from the pair (chain[i-1], chain[i]) on:
previous-hash link, recomputed hash, and the difficulty prefix, with the
source's early returns. -/
def verifyFrom (H : Block → String) (d : Nat) : Block → List Block → Bool
  | _, [] => true
  | prev, curr :: rest =>
    if curr.previous_hash ≠ prev.hash then false
    else if curr.hash ≠ hashBlock H curr then false
    else if ! startsWithZeros d curr.hash then false
    else verifyFrom H d curr rest

/-- Models verify_chain: the loop runs over indices 1..len-1. -/
def verify_chain (H : Block → String) (bc : Blockchain) : Bool :=
  match bc.chain with
  | [] => true
  | g :: rest => verifyFrom H bc.difficulty g rest

/-- Python equality test `v == s` for a looked-up dict value against a str. -/
def valIsStrEq (v : PyVal) (s : String) : Bool :=
  match v with
  | .str t => t == s
  | _ => false

/-- Models dict.get(k): the first binding of k, if any. -/
def dictGet (k : String) : PyDict → Option PyVal
  | .nil => Option.none
  | .cons k2 v rest => if k2 == k then some v else dictGet k rest

def txHasEncHash (h : String) (tx : Transaction) : Bool :=
  match dictGet "enc_hash" tx.file_info with
  | some v => valIsStrEq v h
  | Option.none => false

def blockDataHasEncHash (h : String) (b : Block) : Bool :=
  match b.data with
  | .dict kvs =>
    match dictGet "enc_hash" kvs with
    | some v => valIsStrEq v h
    | Option.none => false
  | _ => false

/-- Models contains_enc_hash: scans blocks, checking data.enc_hash when data
is a dict, then each transaction's file_info.enc_hash. -/
def contains_enc_hash (bc : Blockchain) (h : String) : Bool :=
  bc.chain.any fun b => blockDataHasEncHash h b || b.transactions.any (txHasEncHash h)

/-- The hash of the chain tip, self.last()["hash"]; meaningful on the
non-empty chains every initialised ledger has. -/
def tipHash (bc : Blockchain) : String := (bc.chain.getLastD default).hash

/-- Ledger operations available to the collaborator layer. -/
inductive LedgerOp where
  | createBlock (data : PyVal) (ts : String) (fuel : Nat)
  | addTransaction (sender recipient : String) (file_info : PyDict) (ts : String)

/-- Runs a sequence of ledger calls, each create_block invoked with
previous_hash equal to the current tip's hash as the collaborator contract
prescribes. -/
def runOps (H : Block → String) : Blockchain → List LedgerOp → Option Blockchain
  | bc, [] => some bc
  | bc, .createBlock data ts fuel :: ops =>
    match create_block H fuel bc data (tipHash bc) ts with
    | Option.none => Option.none
    | some (bc2, _) => runOps H bc2 ops
  | bc, .addTransaction s r fi ts :: ops => runOps H (add_transaction bc s r fi ts).1 ops

/-! ## Claims about the AEAD framing and key derivation -/

/-- C1: for every byte string M and 32-byte key K, encrypting with
encrypt_file (framed blob nonce ++ tag ++ ciphertext) and decrypting with
decrypt_file under the same key returns exactly M, given the AES-GCM library
contract: a 12-byte nonce, a 16-byte tag, and decrypt_and_verify inverting
encrypt_and_digest on matching inputs. -/
theorem roundtrip_encrypt_decrypt (A : AEAD) (key nonce m : List Nat)
    (_hkey : key.length = KEY_SIZE)
    (hn : nonce.length = NONCE_SIZE)
    (ht : (A.enc key nonce m).2.length = TAG_SIZE)
    (hdec : A.dec key nonce (A.enc key nonce m).1 (A.enc key nonce m).2 = some m) :
    decrypt_file A key (encrypt_file A key nonce m) = some m := by
  have hassoc :
      nonce ++ (A.enc key nonce m).2 ++ (A.enc key nonce m).1 =
        nonce ++ ((A.enc key nonce m).2 ++ (A.enc key nonce m).1) := by
    simp
  have htake :
      (nonce ++ ((A.enc key nonce m).2 ++ (A.enc key nonce m).1)).take NONCE_SIZE = nonce :=
    List.take_left' hn
  have hdrop1 :
      (nonce ++ ((A.enc key nonce m).2 ++ (A.enc key nonce m).1)).drop NONCE_SIZE =
        (A.enc key nonce m).2 ++ (A.enc key nonce m).1 :=
    List.drop_left' hn
  have htag :
      ((A.enc key nonce m).2 ++ (A.enc key nonce m).1).take TAG_SIZE =
        (A.enc key nonce m).2 :=
    List.take_left' ht
  have hct :
      (nonce ++ ((A.enc key nonce m).2 ++ (A.enc key nonce m).1)).drop
          (NONCE_SIZE + TAG_SIZE) = (A.enc key nonce m).1 := by
    rw [← List.drop_drop, hdrop1]
    exact List.drop_left' ht
  simp only [decrypt_file, encrypt_file, hassoc, htake, hdrop1, htag, hct]
  exact hdec

/-- A concrete AEAD instantiation used to witness the library-contract
hypotheses: the ciphertext is the plaintext, the tag is 16 zero bytes, and
decryption accepts exactly the 16-byte tags. -/
def toyAEAD : AEAD where
  enc := fun _ _ m => (m, List.replicate 16 0)
  dec := fun _ _ c t => if t.length = 16 then some c else Option.none

theorem roundtrip_encrypt_decrypt_witness :
    decrypt_file toyAEAD (List.replicate 32 0)
        (encrypt_file toyAEAD (List.replicate 32 0) (List.replicate 12 0) [1, 2, 3]) =
      some [1, 2, 3] :=
  roundtrip_encrypt_decrypt toyAEAD (List.replicate 32 0) (List.replicate 12 0) [1, 2, 3]
    (by decide) (by decide) (by decide) (by decide)

/-- C2: decrypt_file fails, producing no plaintext at all, whenever the blob
is shorter than nonce+tag (28 bytes) — the sliced tag then has fewer than 16
bytes and the library's tag comparison fails — or whenever the library's tag
verification itself rejects the sliced (nonce, ciphertext, tag). -/
theorem decrypt_file_failure (A : AEAD) (key blob : List Nat)
    (hdecLen : ∀ k n c t, t.length ≠ TAG_SIZE → A.dec k n c t = Option.none)
    (hfail : blob.length < NONCE_SIZE + TAG_SIZE ∨
      A.dec key (blob.take NONCE_SIZE) (blob.drop (NONCE_SIZE + TAG_SIZE))
        ((blob.drop NONCE_SIZE).take TAG_SIZE) = Option.none) :
    decrypt_file A key blob = Option.none := by
  rcases hfail with hshort | hver
  · have hlen : ((blob.drop NONCE_SIZE).take TAG_SIZE).length ≠ TAG_SIZE := by
      simp only [List.length_take, List.length_drop]
      simp only [NONCE_SIZE, TAG_SIZE] at hshort ⊢
      omega
    exact hdecLen _ _ _ _ hlen
  · exact hver

theorem decrypt_file_failure_witness :
    decrypt_file toyAEAD (List.replicate 32 0) [1, 2, 3] = Option.none :=
  decrypt_file_failure toyAEAD (List.replicate 32 0) [1, 2, 3]
    (fun k n c t ht => by
      simp only [toyAEAD, TAG_SIZE] at ht ⊢
      exact if_neg ht)
    (Or.inl (by decide))

/-- C7: the framed blob written by encrypt_file is nonce(12) ++ tag(16) ++
ciphertext, so its length is exactly the plaintext length plus 28, given the
AES-GCM library contract that the tag has 16 bytes and the ciphertext is as
long as the plaintext. -/
theorem encrypt_file_length (A : AEAD) (key nonce m : List Nat)
    (hn : nonce.length = NONCE_SIZE)
    (ht : (A.enc key nonce m).2.length = TAG_SIZE)
    (hc : (A.enc key nonce m).1.length = m.length) :
    (encrypt_file A key nonce m).length = m.length + 28 := by
  simp only [encrypt_file, List.length_append, hn, ht, hc, NONCE_SIZE, TAG_SIZE]
  omega

/-- Witness at the 0-byte plaintext of the spec's example: the blob has
exactly 28 bytes. -/
theorem encrypt_file_length_witness :
    (encrypt_file toyAEAD (List.replicate 32 0) (List.replicate 12 0) []).length = 28 :=
  encrypt_file_length toyAEAD (List.replicate 32 0) (List.replicate 12 0) []
    (by decide) (by decide) (by decide)

/-- C8: derive_key_from_password is deterministic — with a given salt its
result does not depend on the randomness stream, so any two calls with the
same (password, salt) agree — the key has 32 bytes (the PBKDF2 dkLen
contract), and when the salt is absent the freshly generated 16-byte salt is
returned alongside the key. -/
theorem derive_key_from_password_props (kdf : List Nat → List Nat → Nat → Nat → List Nat)
    (pw : String) (salt f1 f2 fresh : List Nat)
    (hlen : ∀ p s, (kdf p s KEY_SIZE PBKDF2_ITERATIONS).length = KEY_SIZE)
    (hfresh : fresh.length = SALT_SIZE) :
    derive_key_from_password kdf pw (some salt) f1 =
        derive_key_from_password kdf pw (some salt) f2 ∧
      (derive_key_from_password kdf pw (some salt) f1).1.length = KEY_SIZE ∧
      (derive_key_from_password kdf pw Option.none fresh).1.length = KEY_SIZE ∧
      (derive_key_from_password kdf pw Option.none fresh).2 = fresh ∧
      (derive_key_from_password kdf pw Option.none fresh).2.length = SALT_SIZE := by
  refine ⟨rfl, ?_, ?_, rfl, ?_⟩
  · exact hlen (utf8Bytes pw) salt
  · exact hlen (utf8Bytes pw) fresh
  · simpa [derive_key_from_password] using hfresh

theorem derive_key_from_password_props_witness :
    derive_key_from_password (fun _ _ dk _ => List.replicate dk 0) "x" (some [5]) [1] =
        derive_key_from_password (fun _ _ dk _ => List.replicate dk 0) "x" (some [5]) [2] ∧
      (derive_key_from_password (fun _ _ dk _ => List.replicate dk 0) "x" (some [5])
          [1]).1.length = KEY_SIZE ∧
      (derive_key_from_password (fun _ _ dk _ => List.replicate dk 0) "x" Option.none
          (List.replicate 16 7)).1.length = KEY_SIZE ∧
      (derive_key_from_password (fun _ _ dk _ => List.replicate dk 0) "x" Option.none
          (List.replicate 16 7)).2 = List.replicate 16 7 ∧
      (derive_key_from_password (fun _ _ dk _ => List.replicate dk 0) "x" Option.none
          (List.replicate 16 7)).2.length = SALT_SIZE :=
  derive_key_from_password_props (fun _ _ dk _ => List.replicate dk 0) "x" [5] [1] [2]
    (List.replicate 16 7) (fun _ _ => by simp) (by decide)

/-! ## Claim about hash_file -/

/-- Folding the chunks produced by chunksAux back together restores the
original list, for any sufficient fuel and positive chunk size. -/
theorem chunksAux_foldl_append {α : Type} (n : Nat) (hn : 0 < n) :
    ∀ (fuel : Nat) (l acc : List α), l.length ≤ fuel →
      (chunksAux n fuel l).foldl (fun a c => a ++ c) acc = acc ++ l := by
  intro fuel
  induction fuel with
  | zero =>
    intro l acc hl
    have : l = [] := List.eq_nil_of_length_eq_zero (Nat.le_zero.mp hl)
    subst this
    simp [chunksAux]
  | succ fuel ih =>
    intro l acc hl
    cases l with
    | nil => simp [chunksAux]
    | cons x xs =>
      have hdrop : ((x :: xs).drop n).length ≤ fuel := by
        simp only [List.length_drop, List.length_cons] at hl ⊢
        omega
      simp only [chunksAux, List.foldl_cons, ih _ _ hdrop, List.append_assoc,
        List.take_append_drop]

/-- C10: hash_file, which feeds the file to the SHA-256 accumulator in
8192-byte chunks, returns exactly the digest of the whole contents in one
shot — the chunked streaming computation equals the one-shot hash. -/
theorem hash_file_eq_oneshot (content : List Nat) :
    hash_file content = sha256bytesHex content := by
  unfold hash_file chunksOfSize
  rw [chunksAux_foldl_append 8192 (by omega) content.length content [] (Nat.le_refl _)]
  rfl

/-! ## Claims about verify_chain and contains_enc_hash -/

theorem verifyFrom_cons (H : Block → String) (d : Nat) (prev curr : Block)
    (rest : List Block) :
    verifyFrom H d prev (curr :: rest) = true ↔
      (curr.previous_hash = prev.hash ∧ curr.hash = hashBlock H curr ∧
       startsWithZeros d curr.hash = true ∧ verifyFrom H d curr rest = true) := by
  simp only [verifyFrom]
  by_cases h1 : curr.previous_hash = prev.hash <;>
    by_cases h2 : curr.hash = hashBlock H curr <;>
      by_cases h3 : startsWithZeros d curr.hash = true <;>
        simp [h1, h2, h3]

theorem verifyFrom_iff (H : Block → String) (d : Nat) :
    ∀ (rest : List Block) (g : Block),
      verifyFrom H d g rest = true ↔
        (List.Chain' (fun p c => c.previous_hash = p.hash) (g :: rest) ∧
         ∀ b ∈ rest, b.hash = hashBlock H b ∧ startsWithZeros d b.hash = true) := by
  intro rest
  induction rest with
  | nil => intro g; simp [verifyFrom]
  | cons curr rest ih =>
    intro g
    rw [verifyFrom_cons, ih curr, List.chain'_cons, List.forall_mem_cons]
    tauto

/-- C3: verify_chain is true exactly when every block after the genesis block
links to its predecessor's stored hash, matches its own recomputed canonical
SHA-256 hash (with the hash field forced empty), and carries the required
run of leading zero hex characters; any violation makes it false. -/
theorem verify_chain_iff (bc : Blockchain) :
    verify_chain hashBlockCore bc = true ↔
      (List.Chain' (fun p c => c.previous_hash = p.hash) bc.chain ∧
       ∀ b ∈ bc.chain.tail,
         b.hash = hash_block b ∧ startsWithZeros bc.difficulty b.hash = true) := by
  obtain ⟨chain, d, pend⟩ := bc
  cases chain with
  | nil => simp [verify_chain]
  | cons g rest =>
    simp only [verify_chain]
    rw [verifyFrom_iff]
    simp [hash_block]

/-- A chain state whose single block has a hash without the difficulty
prefix: verify_chain never examines the genesis block. -/
def lonelyChain : Blockchain :=
  { chain :=
      [{ index := 1, timestamp := "t", data := .str "Genesis Block",
         previous_hash := "0", nonce := 0, hash := "dead", transactions := [] }],
    difficulty := 4, pending_transactions := [] }

/-- C5 counterexample: a chain state that passes verify_chain although its
genesis block's stored hash has no leading zero at all, refuting the claim
for the block at position 0. -/
theorem verify_chain_genesis_unchecked :
    verify_chain hashBlockCore lonelyChain = true ∧
      startsWithZeros lonelyChain.difficulty
        ((lonelyChain.chain.headD default).hash) = false := by
  constructor <;> rfl

/-- C5 amended: on every chain state passing verify_chain, every block after
the genesis block (position 0 is never examined by the loop) has a stored
hash starting with difficulty leading zero hex characters. -/
theorem verify_chain_tail_pow (H : Block → String) (bc : Blockchain)
    (h : verify_chain H bc = true) :
    ∀ b ∈ bc.chain.tail, startsWithZeros bc.difficulty b.hash = true := by
  obtain ⟨chain, d, pend⟩ := bc
  cases chain with
  | nil => simp
  | cons g rest =>
    simp only [verify_chain] at h
    intro b hb
    exact (((verifyFrom_iff H d rest g).mp h).2 b hb).2

/-- A hash-function instantiation used for witnesses where mining at the
real SHA-256 difficulty is not computable in reasonable time. -/
def demoHash : Block → String := fun _ => "0000"

def demoBlockA : Block :=
  { index := 1, timestamp := "t", data := .str "Genesis Block",
    previous_hash := "0", nonce := 0, hash := "0000", transactions := [] }

def demoBlockB : Block :=
  { index := 2, timestamp := "t", data := .str "d",
    previous_hash := "0000", nonce := 0, hash := "0000", transactions := [] }

def demoTwoChain : Blockchain :=
  { chain := [demoBlockA, demoBlockB], difficulty := 4, pending_transactions := [] }

theorem verify_chain_tail_pow_witness :
    startsWithZeros demoTwoChain.difficulty demoBlockB.hash = true :=
  verify_chain_tail_pow demoHash demoTwoChain (by decide) demoBlockB
    (List.mem_singleton.mpr rfl)

theorem valIsStrEq_iff (v : PyVal) (s : String) :
    valIsStrEq v s = true ↔ v = PyVal.str s := by
  cases v <;> simp [valIsStrEq]

theorem txHasEncHash_iff (h : String) (tx : Transaction) :
    txHasEncHash h tx = true ↔
      dictGet "enc_hash" tx.file_info = some (PyVal.str h) := by
  unfold txHasEncHash
  cases hg : dictGet "enc_hash" tx.file_info with
  | none => simp
  | some v => simp [valIsStrEq_iff]

theorem blockDataHasEncHash_iff (h : String) (b : Block) :
    blockDataHasEncHash h b = true ↔
      ∃ kvs, b.data = PyVal.dict kvs ∧ dictGet "enc_hash" kvs = some (PyVal.str h) := by
  unfold blockDataHasEncHash
  cases hd : b.data with
  | dict kvs =>
    cases hg : dictGet "enc_hash" kvs with
    | none => simp [hg]
    | some v => simp [valIsStrEq_iff, hg]
  | str s => simp [hd]
  | int n => simp [hd]
  | bool bo => simp [hd]
  | null => simp [hd]
  | list xs => simp [hd]

/-- C6: contains_enc_hash is true exactly when the digest occurs as the
enc_hash entry of some block's dict-valued data, or as the enc_hash entry of
some transaction's file_info, anywhere in the chain; with no occurrence it
returns false (no exception path exists). -/
theorem contains_enc_hash_iff (bc : Blockchain) (h : String) :
    contains_enc_hash bc h = true ↔
      ∃ b ∈ bc.chain,
        (∃ kvs, b.data = PyVal.dict kvs ∧ dictGet "enc_hash" kvs = some (PyVal.str h)) ∨
          ∃ tx ∈ b.transactions, dictGet "enc_hash" tx.file_info = some (PyVal.str h) := by
  simp only [contains_enc_hash, List.any_eq_true, Bool.or_eq_true,
    blockDataHasEncHash_iff, txHasEncHash_iff]

/-! ## Claim about transaction signatures -/

def fiSample : PyDict := PyDict.ofList [("a", PyVal.int 1)]

def emptyLedgerState : Blockchain :=
  { chain := [], difficulty := 4, pending_transactions := [] }

/-- Sanity: on a non-empty file_info the default-separator serialization the
signature code uses differs from the compact canonical serialization used
for block hashing. -/
theorem signature_serialization_differs :
    dumpsPy (PyVal.dict fiSample) ≠ dumpsCanonical (PyVal.dict fiSample) := by decide

/-- C9 counterexample: the transaction stored by add_transaction carries a
signature that differs from the SHA-256 digest of sender ++ recipient ++
canonical-compact-JSON(file_info) already for file_info with a single entry,
because _create_signature serializes with Python's default spaced
separators. -/
theorem add_transaction_signature_cex :
    ((add_transaction emptyLedgerState "A" "B" fiSample
          "t").1.pending_transactions.getLastD default).signature ≠
      sha256OfString ("A" ++ "B" ++ dumpsCanonical (PyVal.dict fiSample)) := by
  decide

/-- C9 amended: the transaction created by add_transaction carries signature
equal to the SHA-256 hex digest of sender ++ recipient ++ J(file_info),
where J is the key-sorted JSON serialization with Python's default
separators (", ", ": ") — not the compact separators of the canonical block
hashing. -/
theorem add_transaction_signature (bc : Blockchain) (s r : String) (fi : PyDict)
    (ts : String) :
    (add_transaction bc s r fi ts).1.pending_transactions =
      bc.pending_transactions ++
        [{ sender := s, recipient := r, file_info := fi, timestamp := ts,
           signature := sha256OfString (s ++ r ++ dumpsPy (PyVal.dict fi)) }] := rfl

/-! ## Claim about chains built through create_block -/

theorem powFrom_spec (H : Block → String) (d : Nat) (b : Block) :
    ∀ (fuel start n : Nat), powFrom H d b fuel start = some n →
      startsWithZeros d (hashBlock H { b with nonce := n }) = true := by
  intro fuel
  induction fuel with
  | zero => intro start n h; exact absurd h (by simp [powFrom])
  | succ fuel ih =>
    intro start n h
    by_cases hc : startsWithZeros d (hashBlock H { b with nonce := start }) = true
    · rw [powFrom, if_pos hc] at h
      injection h with h2
      rw [← h2]
      exact hc
    · rw [powFrom, if_neg hc] at h
      exact ih _ _ h

theorem create_block_spec (H : Block → String) (fuel : Nat) (bc : Blockchain)
    (data : PyVal) (ph ts : String) (bc2 : Blockchain) (nb : Block)
    (h : create_block H fuel bc data ph ts = some (bc2, nb)) :
    bc2.chain = bc.chain ++ [nb] ∧ bc2.difficulty = bc.difficulty ∧
      bc2.pending_transactions = [] ∧ nb.previous_hash = ph ∧
      nb.hash = hashBlock H nb ∧ startsWithZeros bc.difficulty nb.hash = true := by
  simp only [create_block] at h
  split at h
  · exact absurd h (by simp)
  · rename_i n heq
    injection h with h1
    injection h1 with hbc hnb
    subst hbc
    subst hnb
    refine ⟨rfl, rfl, rfl, rfl, rfl, ?_⟩
    exact powFrom_spec H bc.difficulty _ fuel 0 n heq

theorem verifyFrom_snoc (H : Block → String) (d : Nat) :
    ∀ (rest : List Block) (g nb : Block),
      verifyFrom H d g rest = true →
      nb.previous_hash = (rest.getLastD g).hash →
      nb.hash = hashBlock H nb →
      startsWithZeros d nb.hash = true →
      verifyFrom H d g (rest ++ [nb]) = true := by
  intro rest
  induction rest with
  | nil =>
    intro g nb _hv hlink hh hz
    rw [List.nil_append, verifyFrom_cons]
    exact ⟨by simpa using hlink, hh, hz, rfl⟩
  | cons c rest ih =>
    intro g nb hv hlink hh hz
    rw [List.cons_append, verifyFrom_cons]
    rw [verifyFrom_cons] at hv
    obtain ⟨h1, h2, h3, h4⟩ := hv
    have hlink2 : nb.previous_hash = (rest.getLastD c).hash := by
      rw [← List.getLastD_cons g c rest]
      exact hlink
    exact ⟨h1, h2, h3, ih c nb h4 hlink2 hh hz⟩

theorem runOps_valid (H : Block → String) :
    ∀ (ops : List LedgerOp) (bc bc2 : Blockchain),
      bc.chain ≠ [] → verify_chain H bc = true → runOps H bc ops = some bc2 →
      (bc2.chain ≠ [] ∧ bc2.difficulty = bc.difficulty ∧ verify_chain H bc2 = true) := by
  intro ops
  induction ops with
  | nil =>
    intro bc bc2 hne hv hrun
    injection hrun with h
    subst h
    exact ⟨hne, rfl, hv⟩
  | cons op ops ih =>
    intro bc bc2 hne hv hrun
    cases op with
    | addTransaction s r fi ts =>
      simp only [runOps] at hrun
      exact ih (add_transaction bc s r fi ts).1 bc2 hne hv hrun
    | createBlock data ts fuel =>
      cases heq : create_block H fuel bc data (tipHash bc) ts with
      | none =>
        simp only [runOps, heq] at hrun
        exact Option.noConfusion hrun
      | some p =>
        obtain ⟨bcM, nb⟩ := p
        simp only [runOps, heq] at hrun
        obtain ⟨hch, hd, _, hlink, hh, hz⟩ :=
          create_block_spec H fuel bc data (tipHash bc) ts bcM nb heq
        obtain ⟨g, rest, hgr⟩ : ∃ g rest, bc.chain = g :: rest := by
          cases hcc : bc.chain with
          | nil => exact absurd hcc hne
          | cons g rest => exact ⟨g, rest, rfl⟩
        have hvM : verify_chain H bcM = true := by
          have hchM : bcM.chain = g :: (rest ++ [nb]) := by
            rw [hch, hgr]
            rfl
          have hvf : verifyFrom H bc.difficulty g rest = true := by
            have := hv
            simp only [verify_chain, hgr] at this
            exact this
          have hlink2 : nb.previous_hash = (rest.getLastD g).hash := by
            rw [hlink]
            simp only [tipHash, hgr, List.getLastD_cons]
          simp only [verify_chain, hchM, hd]
          exact verifyFrom_snoc H bc.difficulty rest g nb hvf hlink2 hh hz
        have hneM : bcM.chain ≠ [] := by
          rw [hch, hgr]
          simp
        have hrest := ih bcM bc2 hneM hvM hrun
        exact ⟨hrest.1, hrest.2.1.trans hd, hrest.2.2⟩

/-- C4: every ledger state reached from the freshly constructed Blockchain
by sequential create_block calls (each given the current tip's hash as
previous_hash, per the collaborator contract) and add_transaction calls
satisfies verify_chain = true; `fuel` bounds the unbounded mining loops, and
success of every call is recorded by the `some` results. -/
theorem built_chain_valid (H : Block → String) (fuel : Nat) (ts : String)
    (ops : List LedgerOp) (bc0 bc : Blockchain)
    (hinit : mkBlockchain H fuel ts = some bc0)
    (hrun : runOps H bc0 ops = some bc) :
    verify_chain H bc = true := by
  unfold mkBlockchain at hinit
  cases hcb : create_block H fuel
      { chain := [], difficulty := 4, pending_transactions := [] }
      (.str "Genesis Block") "0" ts with
  | none => rw [hcb] at hinit; exact absurd hinit (by simp)
  | some p =>
    rw [hcb] at hinit
    obtain ⟨bcI, nb⟩ := p
    simp only [Option.map_some'] at hinit
    injection hinit with h0
    subst h0
    obtain ⟨hch, _, _, _, hh, hz⟩ := create_block_spec H fuel _ _ _ _ bcI nb hcb
    have hchI : bcI.chain = [nb] := by simpa using hch
    have hne : bcI.chain ≠ [] := by rw [hchI]; simp
    have hv : verify_chain H bcI = true := by
      simp only [verify_chain, hchI]
      rfl
    exact (runOps_valid H ops bcI bc hne hv hrun).2.2

def demoOps : List LedgerOp :=
  [.addTransaction "A" "B" fiSample "t",
   .createBlock (.dict (PyDict.ofList
      [("filename", .str "a.txt"), ("enc_hash", .str "deadbeef")])) "t" 1]

def demoBC0 : Blockchain := (mkBlockchain demoHash 1 "t0").getD default

def demoBC1 : Blockchain := (runOps demoHash demoBC0 demoOps).getD default

theorem built_chain_valid_witness : verify_chain demoHash demoBC1 = true :=
  built_chain_valid demoHash 1 "t0" demoOps demoBC0 demoBC1 rfl rfl

end CryptoUtils
